import Mathlib

/-!
Verification development for the CodeSense leaderboard refresh engine.

The definitions below are a shallow embedding of the JavaScript source:

* the four platform stat fetchers (`fetchCodeChefStats`, `fetchCodeforcesStats`,
  `fetchLeetCodeStats`, `fetchGitHubStats`),
* the per-user score aggregation performed by `updateLeaderboardBatch`,
* the batch partitioning and the timing offsets of `refreshLeaderboard`,
* the rank recomputation pass, and
* the single-platform update route (`update-codeforces-stats`).

External HTTP calls are modelled by `Except Unit payload` values: `.error ()`
stands for a thrown/rejected request (network error or malformed JSON body),
`.ok data` for a parsed response payload.  JavaScript truthiness tests on
strings and the `x || 0` idiom are modelled explicitly.
-/

namespace CodeSense

/-- Truthiness of an optional JS string: `undefined`, `null` and `""` are falsy. -/
def strTruthy : Option String → Bool
  | none => false
  | some s => !s.isEmpty

/-- The JS idiom `n || 0` applied to a number: `0` is falsy, everything else truthy. -/
def jsOrZero (n : Int) : Int := if n = 0 then 0 else n

/-- The JS idiom `x || 0` applied to a possibly-absent number. -/
def jsOrZeroOpt : Option Int → Int
  | none => 0
  | some n => jsOrZero n

@[simp] theorem jsOrZero_eq (n : Int) : jsOrZero n = n := by
  unfold jsOrZero; split <;> simp_all

@[simp] theorem jsOrZeroOpt_none : jsOrZeroOpt none = 0 := rfl

@[simp] theorem jsOrZeroOpt_some (n : Int) : jsOrZeroOpt (some n) = n := by
  simp [jsOrZeroOpt]

/-! ### Data model

Modelled from the spec: the Mongoose user schema (`models/user`) is not among
the source files, only its callers are.  Per spec section 3, a `User` carries a
mapping from each of the four platform names to an entry
`{username : optional string, score : integer}`, an aggregate `totalScore` and
a `rank`; identity fields other than `email` (used by the update route) and the
database id are irrelevant to the claims and omitted. -/

structure PlatformEntry where
  username : Option String
  score : Int
deriving DecidableEq, Repr

structure Platforms where
  codechef : PlatformEntry
  codeforces : PlatformEntry
  leetcode : PlatformEntry
  github : PlatformEntry
deriving DecidableEq, Repr

structure User where
  id : Nat
  email : String
  platforms : Platforms
  totalScore : Int
  rank : Int
deriving DecidableEq, Repr

/-- The four external platforms. -/
inductive Platform where
  | codechef
  | codeforces
  | leetcode
  | github
deriving DecidableEq, Repr

def Platforms.get (ps : Platforms) : Platform → PlatformEntry
  | .codechef => ps.codechef
  | .codeforces => ps.codeforces
  | .leetcode => ps.leetcode
  | .github => ps.github

/-! ### Platform response payloads (shapes read by the fetchers) -/

/-- CodeChef API payload: `data.success` and `data.heatMap` (a list of entries,
only its length is read). -/
structure CCResponse where
  success : Bool
  heatMap : Option (List Unit)

/-- One element of the Codeforces `result` array; `contribution` may be absent. -/
structure CFResult where
  contribution : Option Int

/-- Codeforces API payload: `data.status` and `data.result`. -/
structure CFResponse where
  status : String
  result : List CFResult

/-- LeetCode stats API payload: `data.status` and `data.totalSolved`. -/
structure LCResponse where
  status : String
  totalSolved : Option Int

/-- A GitHub repository record; only `name` is read. -/
structure Repo where
  name : String

/-! ### The four fetchers (src/unnamed/part_000, lines 8-73) -/

/-- `fetchCodeChefStats(username, prevScore)`: on a thrown request or a
response with `success` false, fall back to `prevScore`; on success the score
is `data.heatMap?.length || 0`. -/
def fetchCodeChefStats (resp : Except Unit CCResponse) (prevScore : Int) : Int :=
  match resp with
  | .error _ => prevScore
  | .ok data =>
    if data.success then jsOrZeroOpt ((data.heatMap.map List.length).map Int.ofNat)
    else prevScore

/-- Evaluation of `data.result[0].contribution || 0`: indexing an empty array
yields `undefined`, and reading `.contribution` from it throws, landing in the
surrounding catch block (modelled by `.error ()`). -/
def cfSuccessScore (data : CFResponse) : Except Unit Int :=
  match data.result.head? with
  | none => .error ()
  | some r => .ok (jsOrZeroOpt r.contribution)

/-- `fetchCodeforcesStats(username, prevScore)`: on a thrown request, a status
other than `"OK"`, or a throw while reading `result[0].contribution`, fall back
to `prevScore`; otherwise the score is `result[0].contribution || 0`. -/
def fetchCodeforcesStats (resp : Except Unit CFResponse) (prevScore : Int) : Int :=
  match resp with
  | .error _ => prevScore
  | .ok data =>
    if data.status = "OK" then
      match cfSuccessScore data with
      | .ok s => s
      | .error _ => prevScore
    else prevScore

/-- `fetchLeetCodeStats(username, prevScore)`: on a thrown request or a status
other than `"success"`, fall back to `prevScore`; otherwise the score is
`data.totalSolved || 0`. -/
def fetchLeetCodeStats (resp : Except Unit LCResponse) (prevScore : Int) : Int :=
  match resp with
  | .error _ => prevScore
  | .ok data =>
    if data.status = "success" then jsOrZeroOpt data.totalSolved
    else prevScore

/-- Commit contribution of one repository: `commitsResponse.data.length || 0`,
and a thrown per-repository request is caught inside the loop body and
contributes nothing. -/
def repoCommitCount (commits : String → Except Unit (List Unit)) (r : Repo) : Nat :=
  match commits r.name with
  | .ok cs => cs.length
  | .error _ => 0

/-- `fetchGitHubStats(username, prevScore)`: a falsy username returns the
fallback immediately; a thrown repository listing returns the fallback; an
empty repository list returns the fallback; otherwise the score is the sum of
commit-list lengths over all repositories, a failed single-repository fetch
contributing 0. -/
def fetchGitHubStats (username : Option String) (prevScore : Int)
    (repos : Except Unit (List Repo))
    (commits : String → Except Unit (List Unit)) : Int :=
  if !strTruthy username then prevScore
  else
    match repos with
    | .error _ => prevScore
    | .ok rs =>
      if rs.isEmpty then prevScore
      else Int.ofNat (rs.map (repoCommitCount commits)).sum

/-! ### External environment

One fixed assignment of response payloads to requests: what each platform
endpoint answers for each username during one refresh cycle. -/

structure Env where
  codechef : String → Except Unit CCResponse
  codeforces : String → Except Unit CFResponse
  leetcode : String → Except Unit LCResponse
  githubRepos : String → Except Unit (List Repo)
  githubCommits : String → String → Except Unit (List Unit)

/-- Dispatch to the fetcher for one platform.  The GitHub fetcher receives the
owner-specific repository listing and per-repository commit endpoints. -/
def fetchPlatform (env : Env) (p : Platform) (username : String) (prevScore : Int) : Int :=
  match p with
  | .codechef => fetchCodeChefStats (env.codechef username) prevScore
  | .codeforces => fetchCodeforcesStats (env.codeforces username) prevScore
  | .leetcode => fetchLeetCodeStats (env.leetcode username) prevScore
  | .github =>
    fetchGitHubStats (some username) prevScore (env.githubRepos username)
      (env.githubCommits username)

/-! ### Aggregation (updateLeaderboardBatch, src/unnamed/part_000 lines 76-117) -/

/-- The previous score read by the aggregator: `user.platforms.p?.score || 0`.
With the spec-modelled schema the entry and its integer score are present, so
only the `|| 0` idiom remains. -/
def prevScoreOf (e : PlatformEntry) : Int := jsOrZero e.score

/-- The score resulting for one platform of one user:
`user.platforms.p?.username ? await fetchP(username, prev) : {score: prev}`. -/
def newScore (env : Env) (p : Platform) (e : PlatformEntry) : Int :=
  if strTruthy e.username then
    fetchPlatform env p (e.username.getD "") (prevScoreOf e)
  else prevScoreOf e

/-- One iteration of the `updateLeaderboardBatch` loop body for one user: the
four platform scores are refreshed (or carried forward), written back together
with `totalScore`, their exact sum.  Usernames, identity fields and `rank` are
not touched by this write. -/
def updateUser (env : Env) (u : User) : User :=
  let cc := newScore env .codechef u.platforms.codechef
  let cf := newScore env .codeforces u.platforms.codeforces
  let lc := newScore env .leetcode u.platforms.leetcode
  let gh := newScore env .github u.platforms.github
  { u with
    platforms :=
      { codechef := { username := u.platforms.codechef.username, score := cc }
        codeforces := { username := u.platforms.codeforces.username, score := cf }
        leetcode := { username := u.platforms.leetcode.username, score := lc }
        github := { username := u.platforms.github.username, score := gh } }
    totalScore := cc + cf + lc + gh }

/-- `updateLeaderboardBatch` over a list of users: each user is read, refreshed
and written back by its own id (ids are distinct in the store), so the batch
acts pointwise. -/
def updateLeaderboardBatch (env : Env) (users : List User) : List User :=
  users.map (updateUser env)

/-! ### Batch partitioning (refreshLeaderboard, src/unnamed/part_000 lines 126-128)

The loop `for (let i = 0; i < users.length; i += batchSize)` together with
`users.slice(i, i + batchSize)` produces the consecutive chunks below (for a
positive batch size, `x :: xs.take (B-1)` is `l.take B` and `xs.drop (B-1)` is
`l.drop B`). -/

def chunks (B : Nat) : List α → List (List α)
  | [] => []
  | x :: xs => (x :: xs.take (B - 1)) :: chunks B (xs.drop (B - 1))
termination_by l => l.length
decreasing_by
  simp only [List.length_drop, List.length_cons]
  omega

/-- The number of scheduled batches, `ceil(L / B)` in natural arithmetic. -/
def numBatches (L B : Nat) : Nat := (L + B - 1) / B

/-! ### Scheduling offsets (refreshLeaderboard, src/unnamed/part_000 lines 123-136)

Delays passed to `setTimeout`, in milliseconds.  JavaScript evaluates
`users.length / batchSize` with exact (floating-point) division; the loop index
`i` is always a multiple of `batchSize`, so each batch offset
`(i / batchSize) * updateInterval` is an exact integer multiple of the
interval.  We model the delays as rationals. -/

/-- Start offset of the batch with index `k`: `(i / batchSize) * updateInterval`
for `i = k * batchSize`. -/
def batchOffset (k : Nat) (I : ℚ) : ℚ := (k : ℚ) * I

/-- Start offset of the last scheduled batch (meaningful when `0 < L`). -/
def lastBatchOffset (L B : Nat) (I : ℚ) : ℚ := ((numBatches L B - 1 : Nat) : ℚ) * I

/-- The delay of the rank-recomputation timer in the source:
`(users.length / batchSize) * updateInterval + 5000` with exact division. -/
def rankUpdateDelay (L B : Nat) (I : ℚ) : ℚ := ((L : ℚ) / (B : ℚ)) * I + 5000

/-- Modelled from the spec: the delay the spec describes,
`numberOfBatches * updateInterval + fixedSettleDelay` with
`numberOfBatches = ceil(L / B)` and a 5 second settle delay. -/
def specRankDelay (L B : Nat) (I : ℚ) : ℚ := ((numBatches L B : Nat) : ℚ) * I + 5000

/-! ### Rank recomputation (src/unnamed/part_000 lines 131-136) -/

/-- The comparison used by `User.find().sort({totalScore: -1})`: a user sorts
before another when its total score is at least as large. -/
def tsGE (a b : User) : Prop := b.totalScore ≤ a.totalScore

instance : DecidableRel tsGE := fun a b =>
  inferInstanceAs (Decidable (b.totalScore ≤ a.totalScore))

instance : IsTotal User tsGE := ⟨fun a b => le_total b.totalScore a.totalScore⟩

instance : IsTrans User tsGE := ⟨fun _ _ _ h h2 => le_trans h2 h⟩

/-- The store read back sorted by `totalScore` descending.  The store sort is
stable (spec section 3: ties keep original retrieval order), realised here by
insertion sort. -/
def sortByTotalDesc (l : List User) : List User := l.insertionSort tsGE

/-- Index of the user with the given id in a list (`findIdx` by id). -/
def idxOfId (uid : Nat) : List User → Option Nat
  | [] => none
  | v :: vs => if v.id = uid then some 0 else (idxOfId uid vs).map (· + 1)

/-- Turn a position in the sorted snapshot into a rank (`position + 1`).  The
`none` branch is unreachable for users present in the snapshot. -/
def optRank : Option Nat → Int
  | some i => (i : Int) + 1
  | none => 0

/-- The rank written for a user: its position in the descending-sorted
snapshot plus one. -/
def rankFromSorted (sorted : List User) (uid : Nat) : Int :=
  optRank (idxOfId uid sorted)

/-- The rank-recomputation pass: re-read all users sorted by `totalScore`
descending and write `rank = position + 1` back to each user by id.  The store
retains its own order; only the `rank` fields change. -/
def assignRanks (store : List User) : List User :=
  let sorted := sortByTotalDesc store
  store.map fun u => { u with rank := rankFromSorted sorted u.id }

/-- One complete refresh cycle with all batch writes landed before rank
recomputation runs (the premise of the invariant claims): every user's scores
are refreshed, then ranks are recomputed from the updated totals. -/
def refreshLeaderboard (env : Env) (store : List User) : List User :=
  assignRanks (updateLeaderboardBatch env store)

/-! ### Single-platform update route (src/app/api/update-codeforces-stats/route.js) -/

/-- The `stats` object of the update request carries the externally supplied
numeric contribution (spec section 6). -/
structure Stats where
  contribution : Int
deriving DecidableEq, Repr

/-- Body of the update request; `none` marks an absent field. -/
structure UpdateRequest where
  email : Option String
  codeforcesUsername : Option String
  stats : Option Stats
deriving DecidableEq, Repr

/-- Outcome of the route: HTTP status plus the store after the request. -/
structure RouteResult where
  status : Nat
  store : List User
deriving DecidableEq, Repr

/-- `User.findOne({email})` followed by `user.save()`: exactly the first user
matching the email is replaced. -/
def saveFirstByEmail (store : List User) (email : String) (f : User → User) : List User :=
  match store with
  | [] => []
  | u :: us => if u.email = email then f u :: us else u :: saveFirstByEmail us email f

/-- The POST handler: `!email || !codeforcesUsername || !stats` yields 400
before anything is written; an email with no matching user yields 404;
otherwise the matched user's codeforces username and score are set and saved
(200). -/
def updateCodeforcesPOST (store : List User) (req : UpdateRequest) : RouteResult :=
  if !strTruthy req.email || !strTruthy req.codeforcesUsername || req.stats.isNone then
    { status := 400, store := store }
  else
    match store.find? (fun u => u.email = req.email.getD "") with
    | none => { status := 404, store := store }
    | some _ =>
      { status := 200
        store := saveFirstByEmail store (req.email.getD "") fun u =>
          { u with
            platforms :=
              { u.platforms with
                codeforces :=
                  { username := req.codeforcesUsername
                    score := (req.stats.getD ⟨0⟩).contribution } } } }

/-! ### Concrete fixtures used by witnesses and counterexamples -/

/-- Commit endpoint of the C7 scenario: repository `r1` has 3 commits and
every other repository has 5. -/
def bobCommits : String → Except Unit (List Unit) := fun n =>
  if n = "r1" then .ok (List.replicate 3 ()) else .ok (List.replicate 5 ())

/-- A concrete external environment: CodeChef unreachable, Codeforces knows
`alice` with contribution 10, LeetCode reports 3 solved, GitHub lists a single
repository with two commits. -/
def envW : Env :=
  { codechef := fun _ => .error ()
    codeforces := fun un => if un = "alice" then .ok ⟨"OK", [⟨some 10⟩]⟩ else .error ()
    leetcode := fun _ => .ok ⟨"success", some 3⟩
    githubRepos := fun _ => .ok [⟨"r"⟩]
    githubCommits := fun _ _ => .ok [(), ()] }

/-- A user registered on three platforms, with no CodeChef username. -/
def userA : User :=
  { id := 1, email := "a@x", totalScore := 0, rank := 0
    platforms :=
      { codechef := ⟨none, 4⟩
        codeforces := ⟨some "alice", 1⟩
        leetcode := ⟨some "l", 2⟩
        github := ⟨some "g", 3⟩ } }

/-- A user registered only on CodeChef. -/
def userB : User :=
  { id := 2, email := "b@x", totalScore := 0, rank := 0
    platforms :=
      { codechef := ⟨some "cc", 5⟩
        codeforces := ⟨none, 0⟩
        leetcode := ⟨none, 0⟩
        github := ⟨none, 0⟩ } }

/-- An update request whose fields are all present but whose email is the
empty string. -/
def reqEmptyEmail : UpdateRequest := ⟨some "", some "x", some ⟨5⟩⟩

/-- A third user, for the batch-partitioning witness. -/
def userC : User :=
  { id := 3, email := "c@x", totalScore := 0, rank := 0
    platforms :=
      { codechef := ⟨none, 0⟩
        codeforces := ⟨none, 7⟩
        leetcode := ⟨some "lc3", 1⟩
        github := ⟨none, 0⟩ } }

/-! ## Theorems -/

/-! ### C2: fetcher failure fallback -/

/-- C2 (amended): every platform fetcher is a total function of its inputs
(never raises to its caller), and on every top-level failure channel — a
thrown request, a non-success response, or a throw while reading the payload —
it returns exactly the previous score.  (The nonnegativity part of the claim
is refuted separately: the returned score is an integer, never absent, but it
can be negative.) -/
theorem fetcher_fallback_on_failure (prevScore : Int) :
    (fetchCodeChefStats (.error ()) prevScore = prevScore)
    ∧ (∀ d : CCResponse, d.success = false →
        fetchCodeChefStats (.ok d) prevScore = prevScore)
    ∧ (fetchCodeforcesStats (.error ()) prevScore = prevScore)
    ∧ (∀ d : CFResponse, d.status ≠ "OK" →
        fetchCodeforcesStats (.ok d) prevScore = prevScore)
    ∧ (∀ d : CFResponse, d.result = [] →
        fetchCodeforcesStats (.ok d) prevScore = prevScore)
    ∧ (fetchLeetCodeStats (.error ()) prevScore = prevScore)
    ∧ (∀ d : LCResponse, d.status ≠ "success" →
        fetchLeetCodeStats (.ok d) prevScore = prevScore)
    ∧ (∀ un commits, fetchGitHubStats un prevScore (.error ()) commits = prevScore)
    ∧ (∀ un commits, fetchGitHubStats un prevScore (.ok []) commits = prevScore) := by
  refine ⟨rfl, fun d hd => ?_, rfl, fun d hd => ?_, fun d hd => ?_, rfl,
    fun d hd => ?_, fun un commits => ?_, fun un commits => ?_⟩
  · simp [fetchCodeChefStats, hd]
  · simp [fetchCodeforcesStats, hd]
  · simp [fetchCodeforcesStats, cfSuccessScore, hd]
  · simp [fetchLeetCodeStats, hd]
  · cases h : strTruthy un <;> simp [fetchGitHubStats, h]
  · cases h : strTruthy un <;> simp [fetchGitHubStats, h]

/-- Witness for C2: a CodeChef response with `success` false falls back to the
previous score 5. -/
theorem fetcher_fallback_on_failure_witness :
    fetchCodeChefStats (.ok ⟨false, some [()]⟩) 5 = 5 :=
  (fetcher_fallback_on_failure 5).2.1 ⟨false, some [()]⟩ rfl

/-- Counterexample for C2 as stated: a well-formed success response whose
Codeforces contribution is negative makes the fetcher return a negative
score. -/
theorem fetcher_returns_negative_score :
    fetchCodeforcesStats (.ok ⟨"OK", [⟨some (-5)⟩]⟩) 0 = -5
    ∧ (-5 : Int) < 0 := by
  exact ⟨rfl, by decide⟩

/-! ### C10: Codeforces status OK with empty result list -/

/-- C10: a Codeforces response whose status is `"OK"` but whose result list is
empty makes the fetcher return the previous score — reading
`result[0].contribution` throws and the catch block converts it into the
stale-data fallback. -/
theorem codeforces_ok_empty_result_falls_back (prevScore : Int) (d : CFResponse)
    (hok : d.status = "OK") (hres : d.result = []) :
    fetchCodeforcesStats (.ok d) prevScore = prevScore := by
  simp [fetchCodeforcesStats, cfSuccessScore, hok, hres]

/-- Witness for C10 at the concrete response with status OK and no results. -/
theorem codeforces_ok_empty_result_falls_back_witness :
    fetchCodeforcesStats (.ok ⟨"OK", []⟩) 7 = 7 :=
  codeforces_ok_empty_result_falls_back 7 ⟨"OK", []⟩ rfl rfl

/-! ### C7: GitHub fetcher -/

/-- C7: the GitHub fetcher returns the previous score immediately when no
(or an empty) username is given and when the repository list is empty; with a
nonempty repository list it returns the sum of commit-list lengths over all
repositories, a repository whose commit fetch throws contributing 0. -/
theorem github_fetcher_behaviour (prevScore : Int) :
    (∀ repos commits, fetchGitHubStats none prevScore repos commits = prevScore)
    ∧ (∀ repos commits, fetchGitHubStats (some "") prevScore repos commits = prevScore)
    ∧ (∀ un commits, strTruthy un = true →
        fetchGitHubStats un prevScore (.ok []) commits = prevScore)
    ∧ (∀ un commits rs, strTruthy un = true → rs ≠ [] →
        fetchGitHubStats un prevScore (.ok rs) commits
          = Int.ofNat (rs.map (repoCommitCount commits)).sum)
    ∧ (∀ commits (r : Repo), commits r.name = .error () → repoCommitCount commits r = 0) := by
  refine ⟨fun repos commits => ?_, fun repos commits => ?_,
    fun un commits h => ?_, fun un commits rs h hrs => ?_, fun commits r hr => ?_⟩
  · rfl
  · rfl
  · simp [fetchGitHubStats, h]
  · simp [fetchGitHubStats, h, hrs]
  · simp [repoCommitCount, hr]

/-- Witness for C7: the spec scenario — user `bob` owns repositories `r1` and
`r2` with 3 and 5 commits, both fetches succeed, so the score is 8. -/
theorem github_fetcher_behaviour_witness :
    fetchGitHubStats (some "bob") 0 (.ok [⟨"r1"⟩, ⟨"r2"⟩]) bobCommits = 8 := by
  have h := (github_fetcher_behaviour 0).2.2.2.1 (some "bob") bobCommits
    [⟨"r1"⟩, ⟨"r2"⟩] (by rfl) (by simp)
  rw [h]; decide

/-! ### C3: totalScore is the exact sum -/

/-- C3: for every user processed by the aggregation step, the `totalScore`
written to the store equals the exact integer sum of the four platform scores
written alongside it (each either freshly fetched or carried forward). -/
theorem totalScore_equals_sum (env : Env) (users : List User) (w : User)
    (hw : w ∈ updateLeaderboardBatch env users) :
    w.totalScore = w.platforms.codechef.score + w.platforms.codeforces.score
      + w.platforms.leetcode.score + w.platforms.github.score := by
  rw [updateLeaderboardBatch] at hw
  rcases List.mem_map.1 hw with ⟨u, -, rfl⟩
  rfl

/-- Witness for C3 on a concrete environment and user. -/
theorem totalScore_equals_sum_witness :
    (updateUser envW userA).totalScore
      = (updateUser envW userA).platforms.codechef.score
        + (updateUser envW userA).platforms.codeforces.score
        + (updateUser envW userA).platforms.leetcode.score
        + (updateUser envW userA).platforms.github.score :=
  totalScore_equals_sum envW [userA] (updateUser envW userA)
    (by simp [updateLeaderboardBatch])

/-! ### C4: carry-forward of unregistered platforms -/

/-- C4: if a user has no registered username for a platform (absent or empty),
that platform's stored score after aggregation equals its stored score before
aggregation; in particular it never becomes zero unless it was previously
zero. -/
theorem carry_forward_score (env : Env) (u : User) (p : Platform)
    (h : strTruthy ((u.platforms.get p).username) = false) :
    (((updateUser env u).platforms.get p).score = (u.platforms.get p).score)
    ∧ (((updateUser env u).platforms.get p).score = 0 → (u.platforms.get p).score = 0) := by
  have he : ((updateUser env u).platforms.get p).score = (u.platforms.get p).score := by
    cases p <;> simp only [Platforms.get] at h ⊢ <;>
      simp [updateUser, newScore, prevScoreOf, h]
  exact ⟨he, fun h0 => by rw [← he]; exact h0⟩

/-- Witness for C4: `userA` has no CodeChef username, so its CodeChef score is
carried forward unchanged by aggregation. -/
theorem carry_forward_score_witness :
    ((updateUser envW userA).platforms.get .codechef).score
      = (userA.platforms.get .codechef).score :=
  (carry_forward_score envW userA .codechef (by rfl)).1

/-! ### C8: single-platform update route validation -/

/-- C8 (amended): a request with a required field missing or JS-falsy (an
empty string for email or username, an absent stats object) is answered 400
with the store unmutated; a request whose fields are all present and truthy
but whose email matches no stored user is answered 404 with the store
unmutated. -/
theorem update_route_validation (store : List User) (req : UpdateRequest) :
    ((strTruthy req.email = false ∨ strTruthy req.codeforcesUsername = false
        ∨ req.stats = none) →
      updateCodeforcesPOST store req = ⟨400, store⟩)
    ∧ (strTruthy req.email = true → strTruthy req.codeforcesUsername = true →
        req.stats.isSome = true →
        (∀ u ∈ store, u.email ≠ req.email.getD "") →
        updateCodeforcesPOST store req = ⟨404, store⟩) := by
  constructor
  · rintro (h | h | h) <;> simp [updateCodeforcesPOST, h]
  · intro he hc hs hfind
    have hn : req.stats.isNone = false := by
      cases hq : req.stats <;> simp [hq] at hs ⊢
    have hfind2 : store.find? (fun u => u.email = req.email.getD "") = none := by
      rw [List.find?_eq_none]
      intro u hu
      simpa using hfind u hu
    simp [updateCodeforcesPOST, he, hc, hn, hfind2]

/-- Witness for C8: a request missing `stats` is rejected 400, a request with
a present-but-empty username is rejected 400, and a complete truthy request
for an unknown email is rejected 404; the store is unchanged each time. -/
theorem update_route_validation_witness :
    updateCodeforcesPOST [userA] ⟨some "a@x", some "alice", none⟩ = ⟨400, [userA]⟩
    ∧ updateCodeforcesPOST [userA] ⟨some "a@x", some "", some ⟨5⟩⟩ = ⟨400, [userA]⟩
    ∧ updateCodeforcesPOST [userA] ⟨some "z@x", some "alice", some ⟨5⟩⟩ = ⟨404, [userA]⟩ :=
  ⟨(update_route_validation [userA] ⟨some "a@x", some "alice", none⟩).1
      (Or.inr (Or.inr rfl)),
   (update_route_validation [userA] ⟨some "a@x", some "", some ⟨5⟩⟩).1
      (Or.inr (Or.inl rfl)),
   (update_route_validation [userA] ⟨some "z@x", some "alice", some ⟨5⟩⟩).2
      rfl rfl rfl (by decide)⟩

/-- Counterexample for C8 as stated: a request whose three fields are all
present — but with an empty-string email — against a store with no matching
user is answered 400 (missing fields), not 404. -/
theorem update_route_empty_email_gets_400 :
    reqEmptyEmail.email.isSome = true
    ∧ reqEmptyEmail.codeforcesUsername.isSome = true
    ∧ reqEmptyEmail.stats.isSome = true
    ∧ updateCodeforcesPOST [] reqEmptyEmail = ⟨400, []⟩ :=
  ⟨rfl, rfl, rfl, rfl⟩

/-! ### C5: batch partitioning -/

theorem chunks_nil (B : Nat) : chunks B ([] : List α) = [] := by rw [chunks]

theorem chunks_cons (B : Nat) (x : α) (xs : List α) :
    chunks B (x :: xs) = (x :: xs.take (B - 1)) :: chunks B (xs.drop (B - 1)) := by
  rw [chunks]

theorem chunks_flatten (B : Nat) (l : List α) : (chunks B l).flatten = l := by
  induction l using chunks.induct B with
  | case1 => rw [chunks_nil]; rfl
  | case2 x xs ih => rw [chunks_cons]; simp [ih]

theorem numBatches_succ (n B : Nat) (hB : 0 < B) :
    numBatches (n + 1) B = numBatches (n - (B - 1)) B + 1 := by
  rw [numBatches, numBatches]
  have h1 : n + 1 + B - 1 = n + B := by omega
  rw [h1, Nat.add_div_right n hB]
  by_cases hn : n ≤ B - 1
  · have h2 : n - (B - 1) = 0 := by omega
    rw [h2]
    rw [Nat.div_eq_of_lt (by omega), Nat.div_eq_of_lt (by omega)]
  · have h2 : n - (B - 1) + B - 1 = n := by omega
    rw [h2]

theorem chunks_length (B : Nat) (hB : 0 < B) (l : List α) :
    (chunks B l).length = numBatches l.length B := by
  induction l using chunks.induct B with
  | case1 =>
    rw [chunks_nil]
    simp [numBatches, Nat.div_eq_of_lt (by omega : B - 1 < B)]
  | case2 x xs ih =>
    rw [chunks_cons]
    simp only [List.length_cons, ih, List.length_drop]
    rw [numBatches_succ xs.length B hB]

theorem chunks_sizes (B : Nat) (hB : 0 < B) (l : List α) :
    ∀ c ∈ chunks B l, c ≠ [] ∧ c.length ≤ B := by
  induction l using chunks.induct B with
  | case1 => rw [chunks_nil]; intro c hc; cases hc
  | case2 x xs ih =>
    rw [chunks_cons]
    intro c hc
    rcases List.mem_cons.1 hc with rfl | hc
    · refine ⟨by simp, ?_⟩
      simp only [List.length_cons, List.length_take]
      omega
    · exact ih c hc

theorem chunks_dropLast (B : Nat) (hB : 0 < B) (l : List α) :
    ∀ c ∈ (chunks B l).dropLast, c.length = B := by
  induction l using chunks.induct B with
  | case1 => rw [chunks_nil]; intro c hc; cases hc
  | case2 x xs ih =>
    rw [chunks_cons]
    by_cases hd : List.drop (B - 1) xs = []
    · rw [hd, chunks_nil]
      intro c hc; cases hc
    · have hrest : chunks B (List.drop (B - 1) xs) ≠ [] := by
        cases hq : List.drop (B - 1) xs with
        | nil => exact absurd hq hd
        | cons y ys => rw [chunks_cons]; simp
      rw [List.dropLast_cons_of_ne_nil hrest]
      intro c hc
      rcases List.mem_cons.1 hc with rfl | hc
      · have hlen : B - 1 < xs.length := by
          by_contra hcon
          exact hd (List.drop_eq_nil_of_le (by omega))
        simp only [List.length_cons, List.length_take]
        omega
      · exact ih c hc

/-- C5: for every user list and positive batch size `B`, the scheduler's
partition consists of `ceil(L / B)` consecutive batches whose concatenation is
the original list (every user covered exactly once, order preserved), every
non-final batch having exactly `B` users and every batch being nonempty with
at most `B` users. -/
theorem batch_partition (B : Nat) (users : List User) (hB : 0 < B) :
    (chunks B users).flatten = users
    ∧ (chunks B users).length = numBatches users.length B
    ∧ (∀ c ∈ (chunks B users).dropLast, c.length = B)
    ∧ (∀ c ∈ chunks B users, c ≠ [] ∧ c.length ≤ B) :=
  ⟨chunks_flatten B users, chunks_length B hB users,
    chunks_dropLast B hB users, chunks_sizes B hB users⟩

/-- Witness for C5: three users in batches of two form two batches that
flatten back to the original list. -/
theorem batch_partition_witness :
    (chunks 2 [userA, userB, userC]).flatten = [userA, userB, userC]
    ∧ (chunks 2 [userA, userB, userC]).length = numBatches 3 2 :=
  ⟨(batch_partition 2 [userA, userB, userC] (by decide)).1,
   (batch_partition 2 [userA, userB, userC] (by decide)).2.1⟩

/-! ### C6: rank-recomputation delay -/

/-- C6 (amended): the rank-recomputation timer fires at
`(L / B) * I + 5000` milliseconds with exact division — not the rounded-up
`ceil(L / B) * I + 5000` of the claim, with which it agrees exactly when `B`
divides `L` — and this offset is strictly after the start offset of the last
scheduled batch. -/
theorem rank_delay_after_last_batch (L B : Nat) (I : ℚ) (hL : 0 < L) (hB : 0 < B)
    (hI : 0 < I) :
    lastBatchOffset L B I < rankUpdateDelay L B I
    ∧ (B ∣ L → rankUpdateDelay L B I = specRankDelay L B I) := by
  constructor
  · have hb : (0 : ℚ) < (B : ℚ) := by exact_mod_cast hB
    have h2 : 1 ≤ numBatches L B := by
      rw [numBatches, Nat.le_div_iff_mul_le hB]
      omega
    have h3 : (numBatches L B - 1) * B ≤ L := by
      rw [Nat.sub_mul, Nat.one_mul]
      have h1 : numBatches L B * B ≤ L + B - 1 := Nat.div_mul_le_self _ _
      generalize numBatches L B * B = m at h1 ⊢
      omega
    have h4 : ((numBatches L B - 1 : ℕ) : ℚ) ≤ (L : ℚ) / (B : ℚ) := by
      rw [le_div_iff₀ hb]
      exact_mod_cast h3
    have h5 : ((numBatches L B - 1 : ℕ) : ℚ) * I ≤ ((L : ℚ) / (B : ℚ)) * I :=
      mul_le_mul_of_nonneg_right h4 (le_of_lt hI)
    rw [lastBatchOffset, rankUpdateDelay]
    linarith
  · rintro ⟨k, rfl⟩
    have hk : 0 < k := by
      rcases Nat.eq_zero_or_pos k with rfl | hk
      · simp at hL
      · exact hk
    have hnb : numBatches (B * k) B = k := by
      rw [numBatches]
      have h6 : B * k + B - 1 = B * k + (B - 1) := by omega
      rw [h6, Nat.mul_add_div hB, Nat.div_eq_of_lt (by omega), Nat.add_zero]
    rw [rankUpdateDelay, specRankDelay, hnb]
    have hbq : (B : ℚ) ≠ 0 := by
      exact_mod_cast Nat.pos_iff_ne_zero.1 hB
    congr 1
    push_cast
    rw [mul_div_cancel_left₀ _ hbq]

/-- Witness for C6 at 5 users, batch size 10, interval 60000 ms: the delay
35000 ms is strictly after the (only) batch offset 0. -/
theorem rank_delay_after_last_batch_witness :
    lastBatchOffset 5 10 60000 < rankUpdateDelay 5 10 60000 :=
  (rank_delay_after_last_batch 5 10 60000 (by norm_num) (by norm_num) (by norm_num)).1

/-- Counterexample for C6 as stated: with 5 users, batch size 10 and interval
60000 ms the source schedules rank recomputation at 35000 ms, while the
claimed formula `ceil(L / B) * I + 5000` gives 65000 ms. -/
theorem rank_delay_not_ceil :
    rankUpdateDelay 5 10 60000 = 35000
    ∧ specRankDelay 5 10 60000 = 65000
    ∧ rankUpdateDelay 5 10 60000 ≠ specRankDelay 5 10 60000 := by
  refine ⟨?_, ?_, ?_⟩ <;>
    norm_num [rankUpdateDelay, specRankDelay, numBatches]

/-! ### C1: rank recomputation invariant (helper lemmas, then the claim) -/

theorem updateUser_id (env : Env) (u : User) : (updateUser env u).id = u.id := rfl

theorem sortByTotalDesc_perm (l : List User) : (sortByTotalDesc l).Perm l :=
  List.perm_insertionSort tsGE l

theorem sortByTotalDesc_pairwise (l : List User) : (sortByTotalDesc l).Pairwise tsGE :=
  List.sorted_insertionSort tsGE l

theorem sortByTotalDesc_map (g : User → User)
    (hg : ∀ u, (g u).totalScore = u.totalScore) (l : List User) :
    sortByTotalDesc (l.map g) = (sortByTotalDesc l).map g := by
  rw [sortByTotalDesc, sortByTotalDesc]
  exact (List.map_insertionSort tsGE tsGE g l (fun a _ b _ => by simp [tsGE, hg])).symm

theorem idxOfId_map_self : ∀ (l : List User), (l.map User.id).Nodup →
    l.map (fun u => idxOfId u.id l) = (List.range l.length).map some := by
  intro l
  induction l with
  | nil => intro _; rfl
  | cons v vs ih =>
    intro h
    rw [List.map_cons, List.nodup_cons] at h
    obtain ⟨hv, hvs⟩ := h
    have hmap : vs.map (fun u => idxOfId u.id (v :: vs))
        = vs.map (fun u => (idxOfId u.id vs).map (· + 1)) := by
      apply List.map_congr_left
      intro u hu
      have hne : v.id ≠ u.id := by
        intro he
        exact hv (he ▸ List.mem_map_of_mem User.id hu)
      simp [idxOfId, hne]
    have hcomp : vs.map (fun u => (idxOfId u.id vs).map (· + 1))
        = (vs.map (fun u => idxOfId u.id vs)).map (Option.map (· + 1)) := by
      rw [List.map_map]
      rfl
    simp only [List.map_cons, hmap, hcomp, ih hvs]
    rw [List.length_cons, List.range_succ_eq_map]
    simp [List.map_map, Function.comp_def, idxOfId]

theorem idxOfId_mem : ∀ (l : List User), (l.map User.id).Nodup →
    ∀ w ∈ l, ∃ i, idxOfId w.id l = some i ∧ l[i]? = some w := by
  intro l
  induction l with
  | nil => intro _ w hw; cases hw
  | cons v vs ih =>
    intro hid w hw
    rw [List.map_cons, List.nodup_cons] at hid
    obtain ⟨hv, hvs⟩ := hid
    rcases List.mem_cons.1 hw with rfl | hw2
    · exact ⟨0, by simp [idxOfId], by simp⟩
    · have hne : v.id ≠ w.id := by
        intro he
        exact hv (he ▸ List.mem_map_of_mem User.id hw2)
      obtain ⟨i, h1, h2⟩ := ih hvs w hw2
      exact ⟨i + 1, by simp [idxOfId, hne, h1], by simpa using h2⟩

theorem idxOfId_map (g : User → User) (hg : ∀ u, (g u).id = u.id) (uid : Nat) :
    ∀ l : List User, idxOfId uid (l.map g) = idxOfId uid l := by
  intro l
  induction l with
  | nil => rfl
  | cons v vs ih => simp [idxOfId, hg, ih]

theorem rank_map_perm (l : List User) (hid : (l.map User.id).Nodup) :
    (l.map (fun u => rankFromSorted (sortByTotalDesc l) u.id)).Perm
      ((List.range l.length).map (fun (i : Nat) => (i : Int) + 1)) := by
  have hperm : (sortByTotalDesc l).Perm l := sortByTotalDesc_perm l
  have hid2 : ((sortByTotalDesc l).map User.id).Nodup :=
    ((hperm.map User.id).nodup_iff).2 hid
  have h1 : (l.map (fun u => rankFromSorted (sortByTotalDesc l) u.id)).Perm
      ((sortByTotalDesc l).map (fun u => rankFromSorted (sortByTotalDesc l) u.id)) :=
    (hperm.map _).symm
  have h2 : (sortByTotalDesc l).map (fun u => rankFromSorted (sortByTotalDesc l) u.id)
      = ((sortByTotalDesc l).map (fun u => idxOfId u.id (sortByTotalDesc l))).map optRank := by
    rw [List.map_map]
    rfl
  have h3 : ((sortByTotalDesc l).map (fun u => idxOfId u.id (sortByTotalDesc l))).map optRank
      = ((List.range (sortByTotalDesc l).length).map some).map optRank := by
    rw [idxOfId_map_self (sortByTotalDesc l) hid2]
  have h4 : ((List.range (sortByTotalDesc l).length).map some).map optRank
      = (List.range l.length).map (fun (i : Nat) => (i : Int) + 1) := by
    rw [List.map_map, hperm.length_eq]
    rfl
  rw [h2, h3, h4] at h1
  exact h1



theorem rank_strict_mono (l : List User) (hid : (l.map User.id).Nodup)
    (u : User) (hu : u ∈ l) (v : User) (hv : v ∈ l)
    (hlt : v.totalScore < u.totalScore) :
    rankFromSorted (sortByTotalDesc l) u.id < rankFromSorted (sortByTotalDesc l) v.id := by
  have hperm := sortByTotalDesc_perm l
  have hid2 : ((sortByTotalDesc l).map User.id).Nodup :=
    ((hperm.map User.id).nodup_iff).2 hid
  obtain ⟨i, hiu, hgu⟩ := idxOfId_mem (sortByTotalDesc l) hid2 u (hperm.mem_iff.2 hu)
  obtain ⟨j, hjv, hgv⟩ := idxOfId_mem (sortByTotalDesc l) hid2 v (hperm.mem_iff.2 hv)
  obtain ⟨hi, hgu2⟩ := List.getElem?_eq_some_iff.1 hgu
  obtain ⟨hj, hgv2⟩ := List.getElem?_eq_some_iff.1 hgv
  rw [rankFromSorted, hiu, rankFromSorted, hjv]
  show (i : Int) + 1 < (j : Int) + 1
  have hij : i < j := by
    rcases lt_trichotomy i j with h | h | h
    · exact h
    · exfalso
      subst h
      have huv : u = v := by rw [← hgu2, ← hgv2]
      rw [huv] at hlt
      exact lt_irrefl _ hlt
    · exfalso
      have hp := (List.pairwise_iff_getElem.1 (sortByTotalDesc_pairwise l)) j i hj hi h
      rw [hgv2, hgu2] at hp
      simp only [tsGE] at hp
      exact absurd hlt (not_lt.2 hp)
  omega

/-- C1: after a complete refresh cycle over `N` users with distinct ids (all
batch writes landed before rank recomputation), the multiset of assigned ranks
is exactly `{1, ..., N}`, every user's rank is its position plus one in the
snapshot sorted by `totalScore` descending, and a strictly larger `totalScore`
always receives a strictly smaller rank. -/
theorem rank_assignment_invariant (env : Env) (store : List User)
    (hid : (store.map User.id).Nodup) :
    ((refreshLeaderboard env store).map User.rank).Perm
        ((List.range store.length).map (fun (i : Nat) => (i : Int) + 1))
    ∧ (∀ u ∈ refreshLeaderboard env store, ∃ i : Nat,
        idxOfId u.id (sortByTotalDesc (updateLeaderboardBatch env store)) = some i
        ∧ u.rank = (i : Int) + 1)
    ∧ (∀ u ∈ refreshLeaderboard env store, ∀ v ∈ refreshLeaderboard env store,
        v.totalScore < u.totalScore → u.rank < v.rank) := by
  have hids : (updateLeaderboardBatch env store).map User.id = store.map User.id := by
    rw [updateLeaderboardBatch, List.map_map]
    rfl
  have hidU : ((updateLeaderboardBatch env store).map User.id).Nodup := by
    rw [hids]; exact hid
  have hfin : refreshLeaderboard env store
      = (updateLeaderboardBatch env store).map
          (fun w => { w with
            rank := rankFromSorted
              (sortByTotalDesc (updateLeaderboardBatch env store)) w.id }) := rfl
  refine ⟨?_, ?_, ?_⟩
  · rw [hfin, List.map_map]
    have hlen : store.length = (updateLeaderboardBatch env store).length := by
      rw [updateLeaderboardBatch, List.length_map]
    rw [hlen]
    exact rank_map_perm _ hidU
  · intro u hu
    rw [hfin] at hu
    obtain ⟨w, hw, rfl⟩ := List.mem_map.1 hu
    have hperm := sortByTotalDesc_perm (updateLeaderboardBatch env store)
    have hid2 : ((sortByTotalDesc (updateLeaderboardBatch env store)).map User.id).Nodup :=
      ((hperm.map User.id).nodup_iff).2 hidU
    obtain ⟨i, h1, h2⟩ := idxOfId_mem _ hid2 w (hperm.mem_iff.2 hw)
    exact ⟨i, h1, by simp [rankFromSorted, h1, optRank]⟩
  · intro u hu v hv hlt
    rw [hfin] at hu hv
    obtain ⟨wu, hwu, rfl⟩ := List.mem_map.1 hu
    obtain ⟨wv, hwv, rfl⟩ := List.mem_map.1 hv
    exact rank_strict_mono _ hidU wu hwu wv hwv hlt

/-- Witness for C1: refreshing a concrete two-user store assigns the ranks
`{1, 2}`. -/
theorem rank_assignment_invariant_witness :
    ((refreshLeaderboard envW [userA, userB]).map User.rank).Perm
      ((List.range ([userA, userB] : List User).length).map (fun (i : Nat) => (i : Int) + 1)) :=
  (rank_assignment_invariant envW [userA, userB] (by decide)).1

/-! ### C9: idempotence of a completed refresh (helper lemmas, then the claim) -/

theorem fetchCodeChefStats_idem (r : Except Unit CCResponse) (p : Int) :
    fetchCodeChefStats r (fetchCodeChefStats r p) = fetchCodeChefStats r p := by
  cases r with
  | error e => rfl
  | ok d =>
    by_cases h : d.success <;> simp [fetchCodeChefStats, h]

theorem fetchCodeforcesStats_idem (r : Except Unit CFResponse) (p : Int) :
    fetchCodeforcesStats r (fetchCodeforcesStats r p) = fetchCodeforcesStats r p := by
  cases r with
  | error e => rfl
  | ok d =>
    by_cases h : d.status = "OK"
    · cases hc : cfSuccessScore d <;> simp [fetchCodeforcesStats, h, hc]
    · simp [fetchCodeforcesStats, h]

theorem fetchLeetCodeStats_idem (r : Except Unit LCResponse) (p : Int) :
    fetchLeetCodeStats r (fetchLeetCodeStats r p) = fetchLeetCodeStats r p := by
  cases r with
  | error e => rfl
  | ok d =>
    by_cases h : d.status = "success" <;> simp [fetchLeetCodeStats, h]

theorem fetchGitHubStats_idem (un : Option String) (p : Int)
    (rs : Except Unit (List Repo)) (cm : String → Except Unit (List Unit)) :
    fetchGitHubStats un (fetchGitHubStats un p rs cm) rs cm
      = fetchGitHubStats un p rs cm := by
  cases h : strTruthy un with
  | false => simp [fetchGitHubStats, h]
  | true =>
    cases rs with
    | error e => simp [fetchGitHubStats, h]
    | ok l =>
      cases he : l.isEmpty <;> simp [fetchGitHubStats, h, he]

theorem fetchPlatform_idem (env : Env) (p : Platform) (un : String) (prev : Int) :
    fetchPlatform env p un (fetchPlatform env p un prev) = fetchPlatform env p un prev := by
  cases p
  · exact fetchCodeChefStats_idem _ _
  · exact fetchCodeforcesStats_idem _ _
  · exact fetchLeetCodeStats_idem _ _
  · exact fetchGitHubStats_idem _ _ _ _

theorem newScore_stable (env : Env) (p : Platform) (e : PlatformEntry) :
    newScore env p ⟨e.username, newScore env p e⟩ = newScore env p e := by
  cases h : strTruthy e.username with
  | false => simp [newScore, h, prevScoreOf]
  | true =>
    simp only [newScore, h, if_pos, prevScoreOf, jsOrZero_eq]
    exact fetchPlatform_idem env p (e.username.getD "") _

theorem updateUser_stable (env : Env) (u : User) (r : Int) :
    updateUser env { updateUser env u with rank := r }
      = { updateUser env u with rank := r } := by
  simp only [updateUser]
  rw [newScore_stable, newScore_stable, newScore_stable, newScore_stable]

theorem assignRanks_idem (l : List User) :
    assignRanks (assignRanks l) = assignRanks l := by
  have hid2 : ∀ u : User,
      ((fun u : User =>
        { u with rank := rankFromSorted (sortByTotalDesc l) u.id }) u).id = u.id :=
    fun _ => rfl
  have hts : ∀ u : User,
      ((fun u : User =>
        { u with rank := rankFromSorted (sortByTotalDesc l) u.id }) u).totalScore
        = u.totalScore := fun _ => rfl
  have h1 : assignRanks l
      = l.map (fun u => { u with rank := rankFromSorted (sortByTotalDesc l) u.id }) := rfl
  have h2 : assignRanks (assignRanks l)
      = (assignRanks l).map (fun x =>
          { x with rank := rankFromSorted (sortByTotalDesc (assignRanks l)) x.id }) := rfl
  have hsorted : sortByTotalDesc (assignRanks l)
      = (sortByTotalDesc l).map
          (fun u => { u with rank := rankFromSorted (sortByTotalDesc l) u.id }) := by
    rw [h1]
    exact sortByTotalDesc_map _ hts l
  have hpt : ∀ x ∈ assignRanks l,
      ({ x with rank := rankFromSorted (sortByTotalDesc (assignRanks l)) x.id } : User)
        = x := by
    intro x hx
    have hrank : rankFromSorted (sortByTotalDesc (assignRanks l)) x.id
        = rankFromSorted (sortByTotalDesc l) x.id := by
      rw [hsorted, rankFromSorted, rankFromSorted,
        idxOfId_map (fun u => { u with rank := rankFromSorted (sortByTotalDesc l) u.id })
          hid2 x.id (sortByTotalDesc l)]
    rw [hrank]
    rw [h1] at hx
    obtain ⟨w, hw, rfl⟩ := List.mem_map.1 hx
    rfl
  rw [h2, List.map_congr_left hpt]
  simp

theorem refreshLeaderboard_idem (env : Env) (store : List User) :
    refreshLeaderboard env (refreshLeaderboard env store) = refreshLeaderboard env store := by
  have hbatch : updateLeaderboardBatch env (refreshLeaderboard env store)
      = refreshLeaderboard env store := by
    rw [updateLeaderboardBatch]
    have hpt : ∀ x ∈ refreshLeaderboard env store, updateUser env x = x := by
      intro x hx
      have hfin : refreshLeaderboard env store
          = (updateLeaderboardBatch env store).map
              (fun w => { w with
                rank := rankFromSorted
                  (sortByTotalDesc (updateLeaderboardBatch env store)) w.id }) := rfl
      rw [hfin] at hx
      obtain ⟨w, hw, rfl⟩ := List.mem_map.1 hx
      rw [updateLeaderboardBatch] at hw
      obtain ⟨u0, hu0, rfl⟩ := List.mem_map.1 hw
      exact updateUser_stable env u0 _
    rw [List.map_congr_left hpt]
    simp
  show assignRanks (updateLeaderboardBatch env (refreshLeaderboard env store))
      = refreshLeaderboard env store
  rw [hbatch]
  exact assignRanks_idem (updateLeaderboardBatch env store)

/-- C9: running the complete refresh twice in immediate succession, with the
external platform responses unchanged between the runs and each run finishing
before the next observation, yields identical `totalScore` values and
identical rank assignments for every user. -/
theorem refresh_idempotent (env : Env) (store : List User) :
    (refreshLeaderboard env (refreshLeaderboard env store)).map User.totalScore
      = (refreshLeaderboard env store).map User.totalScore
    ∧ (refreshLeaderboard env (refreshLeaderboard env store)).map User.rank
      = (refreshLeaderboard env store).map User.rank := by
  rw [refreshLeaderboard_idem]
  exact ⟨rfl, rfl⟩

end CodeSense
